import Mathlib

/-!
# Verification of the speech/streaming core of the voice-chat client

Shallow embedding of the TypeScript core of the repository:
* `src/hooks/useSpeech.ts` — sentence-queued TTS (`speak`, `processSentenceQueue`),
  wake-word standby recognition, one-shot listening, sticky permission errors;
* `src/services/ollama.ts` — `extractJson`, `generateJson`, `generateChatStream`;
* `src/components/ChatView.tsx` — mode synchronization and stream-error handling.

Strings are modelled as Lean `String`/`List Char`; the JavaScript string
primitives used by the source (`trim`, `toLowerCase`, `includes`, `indexOf`,
`lastIndexOf`, `substring`, newline splitting) are given explicit definitions below.
-/

set_option autoImplicit false

namespace AiHologram

/-! ## JavaScript string primitives -/

/-- JS `String.prototype.trim` on a character list: whitespace removed from
both ends. -/
def jsTrim (l : List Char) : List Char :=
  ((l.dropWhile Char.isWhitespace).reverse.dropWhile Char.isWhitespace).reverse

/-- JS `String.prototype.toLowerCase` (ASCII range, as used by the app). -/
def jsLower (l : List Char) : List Char :=
  l.map Char.toLower

/-- Does `hay` start with `needle`? (helper for `listIncludes`). -/
def startsWithL : List Char → List Char → Bool
  | _, [] => true
  | [], _ :: _ => false
  | h :: t, n :: ns => h = n && startsWithL t ns

/-- JS `String.prototype.includes`: `needle` occurs contiguously in `hay`. -/
def listIncludes : List Char → List Char → Bool
  | [], needle => needle.isEmpty
  | h :: t, needle => startsWithL (h :: t) needle || listIncludes t needle

/-- JS `String.prototype.indexOf` for a single character (`-1` if absent). -/
def jsIndexOf (l : List Char) (c : Char) : Int :=
  match l.findIdx? (fun d => d = c) with
  | some n => (n : Int)
  | none => -1

/-- JS `String.prototype.lastIndexOf` for a single character (`-1` if absent). -/
def jsLastIndexOf (l : List Char) (c : Char) : Int :=
  match l.reverse.findIdx? (fun d => d = c) with
  | some n => ((l.length : Int) - 1 - (n : Int))
  | none => -1

/-- JS `String.prototype.substring start stop` (indices in range, as used by
`extractJson`). -/
def jsSubstring (l : List Char) (start stop : Int) : List Char :=
  (l.take stop.toNat).drop start.toNat

/-! ## Speech Engine: sentence splitting (`useSpeech.ts` lines 96-100)

`speak` runs `text.match(/[^.!?]+[.!?\n]*/g) || [text]` and pushes the
fragments whose `trim()` is non-empty onto the sentence queue. -/

/-- Is `c` one of the sentence-ending punctuation characters of the regex
(the negated class `[^.!?]`)? -/
def isPunctChar (c : Char) : Bool :=
  c = '.' || c = '!' || c = '?'

/-- Is `c` in the trailing delimiter class of the regex, `[.!?\n]`? -/
def isDelimChar (c : Char) : Bool :=
  isPunctChar c || c = '\n'

/-- All matches of the global regex `[^.!?]+[.!?\n]*` in order, with an
explicit fuel argument to make the recursion structural: each match is a
maximal run of non-punctuation characters followed by the maximal run of
delimiter characters; positions where the regex cannot match (a leading
punctuation character) are skipped.  At least one character is consumed per
step, so any fuel bounding the length below is enough. -/
def sentenceMatchesF : Nat → List Char → List (List Char)
  | 0, _ => []
  | _ + 1, [] => []
  | fuel + 1, c :: rest =>
    if isPunctChar c then sentenceMatchesF fuel rest
    else
      let body := c :: rest.takeWhile (fun d => !isPunctChar d)
      let r1 := rest.dropWhile (fun d => !isPunctChar d)
      let delims := r1.takeWhile isDelimChar
      let r2 := r1.dropWhile isDelimChar
      (body ++ delims) :: sentenceMatchesF fuel r2

/-- All matches of the global regex `[^.!?]+[.!?\n]*` in the text, in order
(fuel instantiated adequately). -/
def sentenceMatches (l : List Char) : List (List Char) :=
  sentenceMatchesF l.length l

/-- Model of `useSpeech.ts` lines 97-98: the fragment list pushed onto the sentence
queue by `speak(text)`: the regex matches (or `[text]` when there is no
match), with fragments whose `trim()` is empty discarded. -/
def speakFragments (text : String) : List String :=
  let ms := sentenceMatches text.data
  let sentences := if ms.isEmpty then [text.data] else ms
  (sentences.filter (fun st => (jsTrim st).length > 0)).map (fun l => String.mk l)

/-- The enqueue step of `speak` (line 98): fragments are appended to the
sentence queue in order. -/
def speakEnqueue (queue : List String) (text : String) : List String :=
  queue ++ speakFragments text

/-! ## Speech Engine state (`useSpeech.ts`) -/

/-- The `SpeechState` union type from `useSpeech.ts` line 48. -/
inductive SpeechState where
  | idle
  | standby
  | listening
  | speaking
deriving DecidableEq, Repr

/-- Which recognition session is currently installed (handlers attached and
`start()` called): continuous standby (capturing its trigger word) or
one-shot listening.  `stopCurrentRecognition` detaches all handlers, modelled
by `none`. -/
inductive RecKind where
  | standby (trigger : String)
  | listening
deriving DecidableEq, Repr

/-- The mutable state of the `useSpeech` hook: `speechState`,
`permissionError`, `wakeWordDetectedRef`, `sentenceQueueRef`,
`currentUtteranceRef` and the active recognition session. -/
structure HookState where
  speechState : SpeechState
  permissionError : Option String
  wakeDetected : Bool
  queue : List String
  utterance : Option String
  recognition : Option RecKind
deriving DecidableEq, Repr

/-- Model of `processSentenceQueue` (`useSpeech.ts` lines 66-94): a no-op while already
`speaking` or with an empty queue; otherwise the head is shifted off and
spoken (state `speaking`), except that a falsy (empty) head resets the state
to `idle`. -/
def processQueue (s : HookState) : HookState :=
  if s.speechState = SpeechState.speaking || s.queue.isEmpty then s
  else
    match s.queue with
    | [] => s
    | t :: rest =>
      if t = "" then { s with speechState := SpeechState.idle, queue := rest }
      else { s with speechState := SpeechState.speaking, queue := rest, utterance := some t }

/-- Model of `speak` (`useSpeech.ts` lines 96-100): enqueue the non-blank fragments,
then run `processSentenceQueue`. -/
def speakOp (s : HookState) (text : String) : HookState :=
  processQueue { s with queue := speakEnqueue s.queue text }

/-! ## Structured extraction (`ollama.ts` lines 68-97 and 225-249) -/

/-- Model of `extractJson` from `src/services/ollama.ts`: trim, locate the first `{`
and the first `[`; whichever occurs first selects object or array mode; the
span runs to the last occurrence of the complementary closing bracket, which
must lie strictly after the opener; otherwise the result is `null`. -/
def extractJson (text0 : String) : Option String :=
  let l := jsTrim text0.data
  let firstBrace := jsIndexOf l '\x7b'
  let firstBracket := jsIndexOf l '['
  if firstBrace = -1 && firstBracket = -1 then none
  else if firstBrace ≠ -1 && (firstBrace < firstBracket || firstBracket = -1) then
    let lastBrace := jsLastIndexOf l '\x7d'
    if lastBrace > firstBrace then
      some (String.mk (jsSubstring l firstBrace (lastBrace + 1)))
    else none
  else if firstBracket ≠ -1 then
    let lastBracket := jsLastIndexOf l ']'
    if lastBracket > firstBracket then
      some (String.mk (jsSubstring l firstBracket (lastBracket + 1)))
    else none
  else none

/-- Outcome of `generateJson` (`ollama.ts` lines 225-249) as far as the
extraction/parsing pipeline is concerned. -/
inductive JsonOutcome where
  | ok (s : String)
  | extractionError
  | parseError
deriving DecidableEq, Repr

/-- The post-processing of `generateJson`: `extractJson` on the raw model
response; a `null` extraction throws the "did not return a valid JSON object"
error (`ExtractionError`); a span rejected by `JSON.parse` (modelled by the
abstract predicate `parse`) throws the "Failed to parse JSON" error
(`ParseError`). -/
def generateJsonOutcome (parse : String → Bool) (response : String) : JsonOutcome :=
  match extractJson response with
  | none => JsonOutcome.extractionError
  | some s => if parse s then JsonOutcome.ok s else JsonOutcome.parseError

/-! ## Streaming chat (`ollama.ts` lines 141-207)

`generateChatStream` fetches `/api/chat`, throws on a non-2xx status or a
missing body, then reads the body chunk by chunk; each chunk is appended to a
line buffer which is split at newlines, the last (possibly incomplete)
segment staying in the buffer.  Each complete line is skipped when blank,
parsed as JSON (parse failures are logged and skipped), and delivers
`onChunk(message.content)` when that field is truthy.  `onError` runs in the
`catch` block, `onClose` in the `finally` block. -/

/-- Result of `JSON.parse` on one line, as far as the loop body inspects it:
a parse failure, or a record whose `message.content` field is absent
(`none`) or holds some string. -/
inductive LineParse where
  | malformed
  | parsed (content : Option String)
deriving DecidableEq, Repr

/-- Observable callback events of one `generateChatStream` call, in order. -/
inductive Ev where
  | chunk (s : String)
  | error
  | close
deriving DecidableEq, Repr

/-- Is the event an `onChunk` delivery? -/
def isChunkEv : Ev → Bool
  | Ev.chunk _ => true
  | _ => false

/-- The for-loop body (`ollama.ts` lines 189-199) on one complete line:
blank lines are skipped, malformed lines are logged and skipped, and
`chunkJson.message && chunkJson.message.content` (truthy, so non-empty)
yields exactly one `onChunk` event. -/
def lineEvents (parse : List Char → LineParse) (line : List Char) : List Ev :=
  if (jsTrim line).isEmpty then []
  else
    match parse line with
    | LineParse.malformed => []
    | LineParse.parsed none => []
    | LineParse.parsed (some content) =>
      if content = "" then [] else [Ev.chunk content]

/-- Model of `buffer.split(newline)` followed by `buffer = lines.pop()`
with the empty-string fallback (`ollama.ts` lines 186-187), as one pass over
the text: the complete newline-terminated lines, and the trailing segment
kept as the new buffer. -/
def splitNl : List Char → List (List Char) × List Char
  | [] => ([], [])
  | c :: rest =>
    match splitNl rest with
    | (ls, buf) =>
      if c = '\n' then ([] :: ls, buf)
      else
        match ls with
        | [] => ([], c :: buf)
        | l1 :: lt => ((c :: l1) :: lt, buf)

/-- The `while` read loop (`ollama.ts` lines 181-200): chunks arrive in
order, each is merged with the buffer and split into lines; the events of
each complete line are emitted; the stream ends when `done` is reached, the
unterminated buffer being dropped. -/
def readLoop (parse : List Char → LineParse) : List Char → List (List Char) → List Ev
  | _, [] => []
  | buf, c :: cs =>
    let p := splitNl (buf ++ c)
    ((p.1.map (lineEvents parse)).flatten) ++ readLoop parse p.2 cs

/-- One invocation of `generateChatStream`, abstracted over how the platform
behaves: `fetchFails` models a rejected `fetch` (network error, timeout
abort), `ok`/`hasBody` the response status and body presence, `chunks` the
decoded body chunks actually delivered, and `midError` a `reader.read()`
rejection after those chunks (mid-stream network failure or abort). -/
structure StreamInput where
  fetchFails : Bool
  ok : Bool
  hasBody : Bool
  chunks : List (List Char)
  midError : Bool
deriving Repr

/-- The full callback trace of `generateChatStream` (`ollama.ts` lines
165-206): any throw before or during the loop reaches the `catch` block
(`onError`), and the `finally` block (`onClose`) runs on every exit path. -/
def streamEvents (parse : List Char → LineParse) (inp : StreamInput) : List Ev :=
  if inp.fetchFails then [Ev.error, Ev.close]
  else if !inp.ok || !inp.hasBody then [Ev.error, Ev.close]
  else
    readLoop parse [] inp.chunks ++
      (if inp.midError then [Ev.error, Ev.close] else [Ev.close])

/-! ## Wake-word detection (`useSpeech.ts` lines 124-130)

The standby `onresult` handler reads the transcript of the most recent result,
lowercases and trims it, and — when it contains the lowercased trigger word
and the one-shot flag is still clear — sets the flag and calls
`onActivation`. -/

/-- One standby `onresult` event: `transcripts` are the per-result transcript
strings of `event.results`, the handler using the last one.  Returns the new
`wakeWordDetectedRef` value and whether `onActivation` was invoked. -/
def wakeStep (trigger : String) (detected : Bool) (transcripts : List String) :
    Bool × Bool :=
  let transcript := jsTrim (jsLower (transcripts.getLastD "").data)
  if listIncludes transcript (jsLower trigger.data) && !detected then (true, true)
  else (detected, false)

/-- Does one result event contain the trigger (after lowercasing and
trimming, exactly as the handler checks)? -/
def wakeHit (trigger : String) (transcripts : List String) : Bool :=
  listIncludes (jsTrim (jsLower (transcripts.getLastD "").data)) (jsLower trigger.data)

/-- A whole standby session: the flag starts `false`
(`wakeWordDetectedRef.current = false` in `startStandby`), the result events
arrive in order, and we count the `onActivation` invocations. -/
def wakeAccStep (trigger : String) (st : Bool × Nat) (ev : List String) : Bool × Nat :=
  let r := wakeStep trigger st.1 ev
  (r.1, st.2 + (if r.2 then 1 else 0))

/-- Number of `onActivation` invocations over the whole session. -/
def wakeRun (trigger : String) (events : List (List String)) : Nat :=
  (events.foldl (wakeAccStep trigger) (false, 0)).2

/-! ## The `useSpeech` hook as an event-step machine -/

/-- Recognition error kinds distinguished by the handlers
(`event.error` equal to `not-allowed`, to `no-speech`, or anything else). -/
inductive ErrKind where
  | notAllowed
  | noSpeech
  | other
deriving DecidableEq, Repr

/-- Events the hook reacts to: the exposed calls (`startStandby`,
`startListening`, `speak`) and the platform recognition callbacks
(`onresult`/`onend`/`onerror` of whichever session is installed).
`hasApi` models `recognitionRef.current` being non-null. -/
inductive HookEvent where
  | startStandbyCall (trigger : String) (hasApi : Bool)
  | startListeningCall (hasApi : Bool)
  | speakCall (text : String)
  | recResult (transcripts : List String)
  | recEnd
  | recError (e : ErrKind)
deriving DecidableEq, Repr

/-- Callbacks the hook fires outward (`onActivation`, `onTranscript`). -/
inductive OutEvent where
  | activation
  | transcriptOut (t : String)
deriving DecidableEq, Repr

/-- The sticky permission message set by the `not-allowed` handlers
(`useSpeech.ts` lines 142 and 180). -/
def permMsg : String :=
  "Microphone permission denied. Please enable it in your browser settings."

/-- JS truthiness of the `permissionError` state (the guards are
`if (permissionError) return;`). -/
def permTruthy (o : Option String) : Bool :=
  o.getD "" ≠ ""

/-- One step of the hook: the new state and the outward callbacks fired.
Each branch is a direct translation of the corresponding handler in
`useSpeech.ts`. -/
def hookStep (s : HookState) (ev : HookEvent) : HookState × List OutEvent :=
  match ev with
  | HookEvent.startStandbyCall trigger hasApi =>
    -- lines 112-151
    if permTruthy s.permissionError then (s, [])
    else
      let s1 := { s with recognition := none }
      if !hasApi || trigger = "" then (s1, [])
      else
        ({ s1 with
            speechState := SpeechState.standby
            wakeDetected := false
            recognition := some (RecKind.standby trigger) }, [])
  | HookEvent.startListeningCall hasApi =>
    -- lines 153-186
    if permTruthy s.permissionError then (s, [])
    else
      let s1 := { s with recognition := none }
      if !hasApi then (s1, [])
      else
        ({ s1 with
            speechState := SpeechState.listening
            recognition := some RecKind.listening }, [])
  | HookEvent.speakCall text => (speakOp s text, [])
  | HookEvent.recResult transcripts =>
    match s.recognition with
    | some (RecKind.standby trigger) =>
      -- lines 124-130
      let r := wakeStep trigger s.wakeDetected transcripts
      ({ s with wakeDetected := r.1 },
        if r.2 then [OutEvent.activation] else [])
    | some RecKind.listening =>
      -- lines 164-169
      let t := String.mk (jsTrim (transcripts.headD "").data)
      (s, if t ≠ "" then [OutEvent.transcriptOut t] else [])
    | none => (s, [])
  | HookEvent.recEnd =>
    match s.recognition with
    | some (RecKind.standby _) =>
      -- lines 132-136: restart while still in standby without a wake hit
      if !s.wakeDetected && s.speechState = SpeechState.standby then (s, [])
      else ({ s with recognition := none }, [])
    | some RecKind.listening =>
      -- lines 171-175
      if s.speechState = SpeechState.listening then
        ({ s with speechState := SpeechState.idle, recognition := none }, [])
      else ({ s with recognition := none }, [])
    | none => (s, [])
  | HookEvent.recError e =>
    match s.recognition with
    | some (RecKind.standby _) =>
      -- lines 138-147
      match e with
      | ErrKind.notAllowed =>
        ({ s with
            recognition := none
            permissionError := some permMsg
            speechState := SpeechState.idle }, [])
      | ErrKind.noSpeech => (s, [])
      | ErrKind.other => ({ s with speechState := SpeechState.idle }, [])
    | some RecKind.listening =>
      -- lines 177-183
      ({ s with
          permissionError :=
            if e = ErrKind.notAllowed then some permMsg else s.permissionError
          speechState := SpeechState.idle }, [])
    | none => (s, [])

/-! ## Conversation Orchestrator (`ChatView.tsx`) -/

/-- The `ChatMode` union type from `ChatView.tsx` line 9. -/
inductive ChatMode where
  | standby
  | listening
  | responding
  | speaking
deriving DecidableEq, Repr

/-- The mode-synchronization effect (`ChatView.tsx` lines 64-71), run
whenever `speechState` or `mode` changes. -/
def syncMode (speechState : SpeechState) (mode : ChatMode) : ChatMode :=
  if speechState = SpeechState.speaking && mode ≠ ChatMode.speaking then
    ChatMode.speaking
  else if speechState ≠ SpeechState.speaking && mode = ChatMode.speaking then
    ChatMode.standby
  else mode

/-- The `MessageRole` enum from `src/types.ts`. -/
inductive MessageRole where
  | user
  | assistant
  | system
deriving DecidableEq, Repr

/-- The `ChatMessage` record from `src/types.ts`. -/
structure ChatMessage where
  role : MessageRole
  content : String
deriving DecidableEq, Repr

/-- The error string built in the stream `onError` handler
(`ChatView.tsx` line 109). -/
def formatError (msg : String) : String :=
  "Sorry, I encountered an error: " ++ msg

/-- JS `updated[updated.length - 1] = a` on an array viewed as a list
(on an empty array the assignment targets index `-1` and the list of
elements is unchanged). -/
def setLast {α : Type} (l : List α) (a : α) : List α :=
  if l.isEmpty then l else l.dropLast ++ [a]

/-- The stream `onError` handler of `handleUserMessage`
(`ChatView.tsx` lines 107-116): the trailing assistant placeholder is
overwritten with the formatted error string, and the same string is handed
to `speak`.  Returns the new message list and the spoken text. -/
def handleStreamError (messages : List ChatMessage) (errMsg : String) :
    List ChatMessage × String :=
  (setLast messages { role := MessageRole.assistant, content := formatError errMsg },
    formatError errMsg)

/-! # Theorems

## Sentence-splitter lemmas -/

theorem sentenceMatchesF_congr :
    ∀ (fuel fuel2 : Nat) (l : List Char), l.length ≤ fuel → l.length ≤ fuel2 →
      sentenceMatchesF fuel l = sentenceMatchesF fuel2 l := by
  intro fuel
  induction fuel with
  | zero =>
    intro fuel2 l h _
    have hl : l = [] := List.length_eq_zero.mp (Nat.le_zero.mp h)
    subst hl
    cases fuel2 <;> rfl
  | succ n ih =>
    intro fuel2 l h h2
    cases l with
    | nil => cases fuel2 <;> rfl
    | cons c rest =>
      cases fuel2 with
      | zero => simp at h2
      | succ m =>
        simp only [List.length_cons, Nat.add_le_add_iff_right] at h h2
        cases hc : isPunctChar c with
        | true =>
          simp only [sentenceMatchesF, hc, if_true]
          exact ih m rest h h2
        | false =>
          simp only [sentenceMatchesF, hc, Bool.false_eq_true, if_false]
          have hr1 : (rest.dropWhile (fun d => !isPunctChar d)).length ≤ rest.length :=
            (List.dropWhile_suffix _).length_le
          have hr2 : ((rest.dropWhile (fun d => !isPunctChar d)).dropWhile isDelimChar).length ≤
              (rest.dropWhile (fun d => !isPunctChar d)).length :=
            (List.dropWhile_suffix _).length_le
          exact congrArg _ (ih m _ (by omega) (by omega))

theorem sentenceMatches_cons (c : Char) (rest : List Char) :
    sentenceMatches (c :: rest) =
      if isPunctChar c then sentenceMatches rest
      else
        ((c :: rest.takeWhile (fun d => !isPunctChar d)) ++
            (rest.dropWhile (fun d => !isPunctChar d)).takeWhile isDelimChar) ::
          sentenceMatches ((rest.dropWhile (fun d => !isPunctChar d)).dropWhile isDelimChar) := by
  show sentenceMatchesF (rest.length + 1) (c :: rest) = _
  cases hc : isPunctChar c with
  | true => simp only [sentenceMatchesF, hc, if_true]; rfl
  | false =>
    simp only [sentenceMatchesF, hc, Bool.false_eq_true, if_false]
    have hr1 : (rest.dropWhile (fun d => !isPunctChar d)).length ≤ rest.length :=
      (List.dropWhile_suffix _).length_le
    have hr2 : ((rest.dropWhile (fun d => !isPunctChar d)).dropWhile isDelimChar).length ≤
        (rest.dropWhile (fun d => !isPunctChar d)).length :=
      (List.dropWhile_suffix _).length_le
    exact congrArg _ (sentenceMatchesF_congr rest.length _ _ (by omega) (by omega))

theorem dropWhile_punct_after_delim (l : List Char) :
    (l.dropWhile isDelimChar).dropWhile isPunctChar = l.dropWhile isDelimChar := by
  induction l with
  | nil => rfl
  | cons c t ih =>
    cases hd : isDelimChar c with
    | true => simp only [List.dropWhile_cons, hd, if_true]; exact ih
    | false =>
      have hp : isPunctChar c = false := by
        cases hp : isPunctChar c with
        | true => rw [isDelimChar, hp] at hd; simp at hd
        | false => rfl
      simp only [List.dropWhile_cons, hd, hp, Bool.false_eq_true, if_false]

theorem sentenceMatches_flatten_aux :
    ∀ (n : Nat) (l : List Char), l.length ≤ n →
      (sentenceMatches l).flatten = l.dropWhile isPunctChar := by
  intro n
  induction n with
  | zero =>
    intro l h
    have hl : l = [] := List.length_eq_zero.mp (Nat.le_zero.mp h)
    subst hl; rfl
  | succ n ih =>
    intro l h
    cases l with
    | nil => rfl
    | cons c rest =>
      simp only [List.length_cons, Nat.add_le_add_iff_right] at h
      rw [sentenceMatches_cons]
      cases hc : isPunctChar c with
      | true =>
        simp only [hc, if_true, List.dropWhile_cons]
        exact ih rest h
      | false =>
        simp only [hc, Bool.false_eq_true, if_false, List.flatten_cons, List.dropWhile_cons]
        have hr1 : (rest.dropWhile (fun d => !isPunctChar d)).length ≤ rest.length :=
          (List.dropWhile_suffix _).length_le
        have hr2 : ((rest.dropWhile (fun d => !isPunctChar d)).dropWhile isDelimChar).length ≤
            (rest.dropWhile (fun d => !isPunctChar d)).length :=
          (List.dropWhile_suffix _).length_le
        rw [ih _ (by omega), dropWhile_punct_after_delim]
        simp only [List.cons_append, List.append_assoc, List.takeWhile_append_dropWhile]

theorem dropWhile_append_of_all {α : Type} {p : α → Bool} :
    ∀ {l₁ l₂ : List α}, (∀ x ∈ l₁, p x = true) → (l₁ ++ l₂).dropWhile p = l₂.dropWhile p := by
  intro l₁
  induction l₁ with
  | nil => intro l₂ _; rfl
  | cons a t ih =>
    intro l₂ h
    have ha : p a = true := h a (List.mem_cons_self a t)
    simp only [List.cons_append, List.dropWhile_cons, ha, if_true]
    exact ih (fun x hx => h x (List.mem_cons_of_mem a hx))

theorem all_of_dropWhile {α : Type} {p q : α → Bool} {l : List α}
    (h : l.all p = true) : (l.dropWhile q).all p = true := by
  rw [List.all_eq_true] at h ⊢
  intro x hx
  exact h x ((List.dropWhile_suffix q).subset hx)

theorem all_takeWhile {α : Type} {p : α → Bool} {l : List α} :
    (l.takeWhile p).all p = true := by
  rw [List.all_eq_true]
  intro x hx
  exact List.mem_takeWhile_imp hx

theorem sentenceMatches_shape_aux :
    ∀ (n : Nat) (l : List Char), l.length ≤ n →
      (sentenceMatches l).all
        (fun m => !m.isEmpty &&
          (m.dropWhile (fun c => !isPunctChar c)).all isDelimChar) = true := by
  intro n
  induction n with
  | zero =>
    intro l h
    have hl : l = [] := List.length_eq_zero.mp (Nat.le_zero.mp h)
    subst hl; rfl
  | succ n ih =>
    intro l h
    cases l with
    | nil => rfl
    | cons c rest =>
      simp only [List.length_cons, Nat.add_le_add_iff_right] at h
      rw [sentenceMatches_cons]
      cases hc : isPunctChar c with
      | true => simp only [hc, if_true]; exact ih rest h
      | false =>
        simp only [hc, Bool.false_eq_true, if_false, List.all_cons]
        have hr1 : (rest.dropWhile (fun d => !isPunctChar d)).length ≤ rest.length :=
          (List.dropWhile_suffix _).length_le
        have hr2 : ((rest.dropWhile (fun d => !isPunctChar d)).dropWhile isDelimChar).length ≤
            (rest.dropWhile (fun d => !isPunctChar d)).length :=
          (List.dropWhile_suffix _).length_le
        rw [ih _ (by omega)]
        have hbody : ∀ x ∈ c :: rest.takeWhile (fun d => !isPunctChar d),
            (fun d => !isPunctChar d) x = true := by
          intro x hx
          rcases List.mem_cons.mp hx with hx | hx
          · subst hx; simp [hc]
          · have hx2 := List.mem_takeWhile_imp hx
            exact hx2
        rw [dropWhile_append_of_all hbody]
        have hdel : ((rest.dropWhile (fun d => !isPunctChar d)).takeWhile
            isDelimChar).all isDelimChar = true := all_takeWhile
        have : (((rest.dropWhile (fun d => !isPunctChar d)).takeWhile
            isDelimChar).dropWhile (fun c => !isPunctChar c)).all isDelimChar = true :=
          all_of_dropWhile hdel
        simp [this]

theorem jsTrim_of_all_ws {l : List Char} (h : l.all Char.isWhitespace = true) :
    jsTrim l = [] := by
  have h1 : l.dropWhile Char.isWhitespace = [] := by
    rw [List.dropWhile_eq_nil_iff]
    intro x hx
    exact List.all_eq_true.mp h x hx
  rw [jsTrim, h1]
  rfl

theorem speakFragments_not_ws (text : String) :
    (speakFragments text).all (fun s => !(s.data.all Char.isWhitespace)) = true := by
  rw [List.all_eq_true]
  intro s hs
  rw [speakFragments, List.mem_map] at hs
  obtain ⟨l, hl, rfl⟩ := hs
  rw [List.mem_filter] at hl
  have hlen : (jsTrim l).length > 0 := by simpa using hl.2
  show (!(l.all Char.isWhitespace)) = true
  cases hws : l.all Char.isWhitespace with
  | true =>
    rw [jsTrim_of_all_ws hws] at hlen
    simp at hlen
  | false => rfl

/-! ## Claim C1 -/

/-- C1 counterexample: the claim as stated is false on the code.  The
fragments pushed by `speak("A. B! C?")` keep their leading whitespace (the
second and third are `" B!"` and `" C?"`, not `"B!"` and `"C?"`), and a bare
newline is not a split boundary (`speak("A\nB")` pushes the single fragment
`"A\nB"`, not `"A\n"` and `"B"`). -/
theorem c1_counterexample :
    speakEnqueue [] "A. B! C?" ≠ ["A.", "B!", "C?"] ∧
    speakEnqueue [] "A\nB" ≠ ["A\n", "B"] := by
  constructor <;> decide

/-- C1 amended: `speak(text)` splits the input into fragments consisting of a
maximal run of non-`.!?` characters followed by the maximal run of trailing
delimiter characters (`.`, `!`, `?`, newline — so a fragment boundary occurs
only at `.`, `!`, `?`, while newlines are merely retained inside or at the
end of fragments); whitespace-only fragments are discarded, the kept
fragments are not trimmed, and they are appended to the sentence queue in
their original order, jointly covering the input text after any leading
punctuation.  In particular `speak("A. B! C?")` enqueues exactly
`["A.", " B!", " C?"]`. -/
theorem c1_amended_splitting :
    (∀ (q : List String) (text : String), speakEnqueue q text = q ++ speakFragments text) ∧
    (∀ l : List Char, (sentenceMatches l).flatten = l.dropWhile isPunctChar) ∧
    (∀ l : List Char,
      (sentenceMatches l).all
        (fun m => !m.isEmpty &&
          (m.dropWhile (fun c => !isPunctChar c)).all isDelimChar) = true) ∧
    (∀ text : String,
      (speakFragments text).all (fun s => !(s.data.all Char.isWhitespace)) = true) ∧
    speakEnqueue [] "A. B! C?" = ["A.", " B!", " C?"] := by
  refine ⟨fun q text => rfl, ?_, ?_, speakFragments_not_ws, by decide⟩
  · intro l
    exact sentenceMatches_flatten_aux l.length l (Nat.le_refl _)
  · intro l
    exact sentenceMatches_shape_aux l.length l (Nat.le_refl _)

/-! ## Claim C9 -/

/-- C9: with the Speech Engine `idle` (and hence an empty sentence queue),
`speak("")` and `speak("   ")` enqueue nothing and leave the whole hook
state — queue and `speechState` included — unchanged. -/
theorem c9_speak_blank_noop (s : HookState)
    (_h1 : s.speechState = SpeechState.idle) (h2 : s.queue = []) :
    speakOp s "" = s ∧ speakOp s "   " = s := by
  constructor
  · show processQueue { s with queue := s.queue ++ [] } = s
    rw [List.append_nil]
    show processQueue s = s
    simp [processQueue, h2]
  · show processQueue { s with queue := s.queue ++ [] } = s
    rw [List.append_nil]
    show processQueue s = s
    simp [processQueue, h2]

/-- Witness for C9 at a concrete idle state. -/
theorem c9_speak_blank_noop_witness :
    (⟨SpeechState.idle, none, false, [], none, none⟩ : HookState).speechState =
        SpeechState.idle ∧
    (⟨SpeechState.idle, none, false, [], none, none⟩ : HookState).queue = [] ∧
    (speakOp ⟨SpeechState.idle, none, false, [], none, none⟩ "" =
        ⟨SpeechState.idle, none, false, [], none, none⟩ ∧
      speakOp ⟨SpeechState.idle, none, false, [], none, none⟩ "   " =
        ⟨SpeechState.idle, none, false, [], none, none⟩) :=
  ⟨rfl, rfl, c9_speak_blank_noop _ rfl rfl⟩

/-! ## Claim C2 -/

/-- C2: structured extraction picks the opening bracket that occurs first to
choose object or array mode and returns the span from that opener to the
last complementary closer when the closer follows the opener
(`extractJson = some span`); `generateJson` raises its extraction error
exactly when `extractJson` is `null`, and its parse error exactly when a
span was extracted but rejected by `JSON.parse`.  Concretely: the object
example extracts its bracketed span, a bracketless input fails extraction,
and the mismatched `[1,2}` input fails extraction. -/
theorem c2_extract_json :
    extractJson "Here: \x7b\"a\":1,\"b\":[2,3]\x7d thanks" =
        some "\x7b\"a\":1,\"b\":[2,3]\x7d" ∧
    extractJson "There are no brackets in this response" = none ∧
    extractJson "[1,2\x7d broken" = none ∧
    (∀ (parse : String → Bool) (resp : String),
      generateJsonOutcome parse resp = JsonOutcome.extractionError ↔
        extractJson resp = none) ∧
    (∀ (parse : String → Bool) (resp : String),
      generateJsonOutcome parse resp = JsonOutcome.parseError ↔
        ∃ s, extractJson resp = some s ∧ parse s = false) := by
  refine ⟨by decide, by decide, by decide, ?_, ?_⟩
  · intro parse resp
    rw [generateJsonOutcome]
    cases h : extractJson resp with
    | none => simp
    | some s =>
      cases hp : parse s with
      | true => simp [hp]
      | false => simp [hp]
  · intro parse resp
    rw [generateJsonOutcome]
    cases h : extractJson resp with
    | none => simp
    | some s =>
      cases hp : parse s with
      | true => simp [hp]
      | false => simp [hp]

/-! ## Claim C5 -/

theorem wakeStep_eq (trigger : String) (d : Bool) (ev : List String) :
    wakeStep trigger d ev =
      if wakeHit trigger ev && !d then (true, true) else (d, false) := rfl

theorem wakeRun_foldl_aux (trigger : String) :
    ∀ (events : List (List String)) (d : Bool) (n : Nat),
      (events.foldl (wakeAccStep trigger) (d, n)).2 =
        n + (if d then 0 else if events.any (wakeHit trigger) then 1 else 0) := by
  intro events
  induction events with
  | nil =>
    intro d n
    cases d <;> simp
  | cons ev evs ih =>
    intro d n
    rw [List.foldl_cons]
    cases d with
    | true =>
      have hstep : wakeAccStep trigger (true, n) ev = (true, n) := by
        rw [wakeAccStep, wakeStep_eq]
        simp
      rw [hstep, ih]
      simp
    | false =>
      cases hh : wakeHit trigger ev with
      | true =>
        have hstep : wakeAccStep trigger (false, n) ev = (true, n + 1) := by
          rw [wakeAccStep, wakeStep_eq]
          simp [hh]
        rw [hstep, ih]
        simp [hh]
      | false =>
        have hstep : wakeAccStep trigger (false, n) ev = (false, n) := by
          rw [wakeAccStep, wakeStep_eq]
          simp [hh]
        rw [hstep, ih]
        simp [hh]

/-- C5: over any standby session, the activation callback fires exactly once
when some recognition result (its most recent segment, lowercased and
trimmed) contains the lowercased trigger phrase, and never otherwise — in
particular it fires at most once per session even when the trigger occurs in
several sequential results, and detection is case-insensitive (the concrete
runs mix upper and lower case and each activates exactly once). -/
theorem c5_wake_once :
    (∀ (trigger : String) (events : List (List String)),
      wakeRun trigger events = if events.any (wakeHit trigger) then 1 else 0) ∧
    (∀ (trigger : String) (events : List (List String)),
      wakeRun trigger events ≤ 1) ∧
    wakeRun "Hey Bot" [["HEY BOT, hello"], ["hey bot again"]] = 1 ∧
    wakeRun "hey bot" [["no trigger"], ["Hey Bot?"], ["HEY BOT!"]] = 1 := by
  have hrun : ∀ (trigger : String) (events : List (List String)),
      wakeRun trigger events = if events.any (wakeHit trigger) then 1 else 0 := by
    intro trigger events
    rw [wakeRun, wakeRun_foldl_aux]
    simp
  refine ⟨hrun, ?_, by decide, by decide⟩
  intro trigger events
  rw [hrun]
  split <;> omega

/-! ## Claim C7 -/

/-- C7: the reactive synchronization between the Speech Engine state and the
Orchestrator mode consists of exactly two rules: when the engine reports
`speaking` the mode becomes `speaking` (if not already), when the engine
stops reporting `speaking` while the mode is `speaking` the mode reverts to
`standby`, and in every other combination the mode is left unchanged. -/
theorem c7_mode_sync :
    ∀ (ss : SpeechState) (m : ChatMode),
      syncMode ss m =
        if ss = SpeechState.speaking then ChatMode.speaking
        else if m = ChatMode.speaking then ChatMode.standby
        else m := by
  intro ss m
  cases ss <;> cases m <;> rfl

/-! ## Claim C8 -/

/-- C8: when a streaming chat call errors, the trailing assistant
placeholder is replaced wholesale by the formatted error string (whatever
partial content it held), that exact string is what gets spoken, the
earlier messages are untouched, and the formatted string contains the
error message text. -/
theorem c8_stream_error_replaces (messages : List ChatMessage) (errMsg : String)
    (h : messages ≠ []) :
    (handleStreamError messages errMsg).2 = formatError errMsg ∧
    (handleStreamError messages errMsg).1 =
      messages.dropLast ++
        [{ role := MessageRole.assistant, content := formatError errMsg }] ∧
    (handleStreamError messages errMsg).1.length = messages.length ∧
    formatError errMsg = "Sorry, I encountered an error: " ++ errMsg := by
  have hne : messages.isEmpty = false := by
    cases messages with
    | nil => exact absurd rfl h
    | cons a t => rfl
  refine ⟨rfl, ?_, ?_, rfl⟩
  · rw [handleStreamError, setLast, hne]
    simp
  · rw [handleStreamError, setLast, hne]
    simp only [Bool.false_eq_true, if_false, List.length_append, List.length_dropLast,
      List.length_cons, List.length_nil]
    have : 1 ≤ messages.length := by
      cases messages with
      | nil => exact absurd rfl h
      | cons a t => simp
    omega

/-- Witness for C8 on a two-message history. -/
theorem c8_stream_error_replaces_witness :
    ([{ role := MessageRole.user, content := "hi" },
      { role := MessageRole.assistant, content := "partial" }] : List ChatMessage) ≠ [] ∧
    (handleStreamError
        [{ role := MessageRole.user, content := "hi" },
         { role := MessageRole.assistant, content := "partial" }] "boom").1 =
      [{ role := MessageRole.user, content := "hi" }] ++
        [{ role := MessageRole.assistant, content := formatError "boom" }] :=
  ⟨by decide,
    (c8_stream_error_replaces
      [{ role := MessageRole.user, content := "hi" },
       { role := MessageRole.assistant, content := "partial" }] "boom"
      (by decide)).2.1⟩

/-! ## Claim C6 -/

theorem processQueue_permissionError (s : HookState) :
    (processQueue s).permissionError = s.permissionError := by
  rw [processQueue]
  split
  · rfl
  · split
    · rfl
    · split <;> rfl

theorem speakOp_permissionError (s : HookState) (text : String) :
    (speakOp s text).permissionError = s.permissionError := by
  rw [speakOp, processQueue_permissionError]

/-- C6: once `permissionError` is set (a truthy value, as the guards test
it), `startStandby` and `startListening` are exact no-ops — the state is
returned unchanged and no session or callback is produced — and no event
the hook handles ever clears the error: after any step the error is still
truthy. -/
theorem c6_permission_sticky (s : HookState)
    (h : permTruthy s.permissionError = true) :
    (∀ (trigger : String) (hasApi : Bool),
      hookStep s (HookEvent.startStandbyCall trigger hasApi) = (s, [])) ∧
    (∀ hasApi : Bool, hookStep s (HookEvent.startListeningCall hasApi) = (s, [])) ∧
    (∀ ev : HookEvent, permTruthy (hookStep s ev).1.permissionError = true) := by
  refine ⟨?_, ?_, ?_⟩
  · intro trigger hasApi
    simp [hookStep, h]
  · intro hasApi
    simp [hookStep, h]
  · intro ev
    have hperm : permTruthy (some permMsg) = true := by decide
    cases ev with
    | startStandbyCall trigger hasApi => simp [hookStep, h]
    | startListeningCall hasApi => simp [hookStep, h]
    | speakCall text =>
      show permTruthy (speakOp s text).permissionError = true
      rw [speakOp_permissionError]
      exact h
    | recResult transcripts =>
      cases hrec : s.recognition with
      | none => simpa [hookStep, hrec] using h
      | some k =>
        cases k with
        | standby trigger =>
          simp only [hookStep, hrec]
          exact h
        | listening =>
          simp only [hookStep, hrec]
          exact h
    | recEnd =>
      cases hrec : s.recognition with
      | none => simpa [hookStep, hrec] using h
      | some k =>
        cases k with
        | standby trigger =>
          simp only [hookStep, hrec]
          split <;> exact h
        | listening =>
          simp only [hookStep, hrec]
          split <;> exact h
    | recError e =>
      cases hrec : s.recognition with
      | none => simpa [hookStep, hrec] using h
      | some k =>
        cases k with
        | standby trigger =>
          cases e with
          | notAllowed => simpa [hookStep, hrec] using hperm
          | noSpeech => simpa [hookStep, hrec] using h
          | other => simpa [hookStep, hrec] using h
        | listening =>
          by_cases he : e = ErrKind.notAllowed
          · simpa [hookStep, hrec, he] using hperm
          · simpa [hookStep, hrec, he] using h

/-- Witness for C6: with the permission error recorded, both start calls
leave a concrete state untouched. -/
theorem c6_permission_sticky_witness :
    permTruthy (⟨SpeechState.idle, some permMsg, false, [], none, none⟩ :
        HookState).permissionError = true ∧
    hookStep ⟨SpeechState.idle, some permMsg, false, [], none, none⟩
        (HookEvent.startStandbyCall "hey assistant" true) =
      (⟨SpeechState.idle, some permMsg, false, [], none, none⟩, []) ∧
    hookStep ⟨SpeechState.idle, some permMsg, false, [], none, none⟩
        (HookEvent.startListeningCall true) =
      (⟨SpeechState.idle, some permMsg, false, [], none, none⟩, []) :=
  ⟨by decide,
    (c6_permission_sticky _ (by decide)).1 "hey assistant" true,
    (c6_permission_sticky _ (by decide)).2.1 true⟩

/-! ## Streaming-decode lemmas -/

theorem splitNl_snd_no_nl : ∀ l : List Char, '\n' ∉ (splitNl l).2 := by
  intro l
  induction l with
  | nil => simp [splitNl]
  | cons c rest ih =>
    rcases hp : splitNl rest with ⟨ls, buf⟩
    rw [hp] at ih
    by_cases hc : c = '\n'
    · simpa [splitNl, hp, hc] using ih
    · cases ls with
      | nil =>
        simp only [splitNl, hp, hc, if_false]
        simp only [List.mem_cons, not_or]
        exact ⟨fun hn => hc hn.symm, ih⟩
      | cons l1 lt => simpa [splitNl, hp, hc] using ih

theorem splitNl_of_no_nl : ∀ l : List Char, '\n' ∉ l → splitNl l = ([], l) := by
  intro l
  induction l with
  | nil => intro _; rfl
  | cons c rest ih =>
    intro h
    have hc : ¬(c = '\n') := fun hc => h (by simp [hc])
    have hrest : '\n' ∉ rest := fun hr => h (List.mem_cons_of_mem _ hr)
    simp [splitNl, ih hrest, hc]

theorem splitNl_append : ∀ (a b : List Char),
    splitNl (a ++ b) =
      ((splitNl a).1 ++ (splitNl ((splitNl a).2 ++ b)).1,
        (splitNl ((splitNl a).2 ++ b)).2) := by
  intro a b
  induction a with
  | nil => simp [splitNl]
  | cons c a' ih =>
    rcases hA : splitNl a' with ⟨ls, buf⟩
    rcases hR : splitNl (buf ++ b) with ⟨rls, rbuf⟩
    have ih2 : splitNl (a' ++ b) = (ls ++ rls, rbuf) := by
      rw [ih, hA]
      simp [hR]
    show splitNl (c :: (a' ++ b)) = _
    by_cases hc : c = '\n'
    · subst hc
      simp [splitNl, ih2, hA, hR]
    · cases ls with
      | nil =>
        cases rls with
        | nil => simp [splitNl, ih2, hA, hR, hc]
        | cons r1 rt => simp [splitNl, ih2, hA, hR, hc]
      | cons l1 lt => simp [splitNl, ih2, hA, hR, hc]

theorem readLoop_flatten (parse : List Char → LineParse) :
    ∀ (cs : List (List Char)) (buf : List Char), '\n' ∉ buf →
      readLoop parse buf cs =
        ((splitNl (buf ++ cs.flatten)).1.map (lineEvents parse)).flatten := by
  intro cs
  induction cs with
  | nil =>
    intro buf hbuf
    rw [List.flatten_nil, List.append_nil, splitNl_of_no_nl buf hbuf]
    rfl
  | cons c cs' ih =>
    intro buf hbuf
    rcases hp : splitNl (buf ++ c) with ⟨ls, buf2⟩
    have hbuf2 : '\n' ∉ buf2 := by
      have h2 := splitNl_snd_no_nl (buf ++ c)
      rw [hp] at h2
      exact h2
    have hsplit : splitNl (buf ++ (c :: cs').flatten) =
        (ls ++ (splitNl (buf2 ++ cs'.flatten)).1, (splitNl (buf2 ++ cs'.flatten)).2) := by
      rw [List.flatten_cons, ← List.append_assoc, splitNl_append (buf ++ c) cs'.flatten, hp]
    simp only [readLoop, hp]
    rw [ih buf2 hbuf2, hsplit]
    simp [List.map_append]

theorem lineEvents_all_chunk (parse : List Char → LineParse) (line : List Char) :
    (lineEvents parse line).all isChunkEv = true := by
  by_cases hb : (jsTrim line).isEmpty
  · simp [lineEvents, hb]
  · cases hp : parse line with
    | malformed => simp [lineEvents, hb, hp]
    | parsed content =>
      cases content with
      | none => simp [lineEvents, hb, hp]
      | some c =>
        by_cases hc : c = "" <;> simp [lineEvents, hb, hp, hc, isChunkEv]

theorem flatten_lineEvents_all_chunk (parse : List Char → LineParse)
    (L : List (List Char)) :
    ((L.map (lineEvents parse)).flatten).all isChunkEv = true := by
  rw [List.all_eq_true]
  intro e he
  rw [List.mem_flatten] at he
  obtain ⟨l, hl, hel⟩ := he
  rw [List.mem_map] at hl
  obtain ⟨line, _, rfl⟩ := hl
  exact List.all_eq_true.mp (lineEvents_all_chunk parse line) e hel

theorem readLoop_all_chunk (parse : List Char → LineParse) :
    ∀ (cs : List (List Char)) (buf : List Char),
      (readLoop parse buf cs).all isChunkEv = true := by
  intro cs
  induction cs with
  | nil => intro buf; rfl
  | cons c cs' ih =>
    intro buf
    rcases hp : splitNl (buf ++ c) with ⟨ls, buf2⟩
    simp only [readLoop, hp, List.all_append]
    rw [flatten_lineEvents_all_chunk, ih]
    rfl

theorem count_close_of_chunks {pre : List Ev} (h : pre.all isChunkEv = true) :
    pre.count Ev.close = 0 := by
  rw [List.count_eq_zero]
  intro hmem
  have h2 := List.all_eq_true.mp h Ev.close hmem
  simp [isChunkEv] at h2

/-! ## Claim C3 -/

/-- C3: every `generateChatStream` invocation, whatever the platform does —
rejected fetch (network error or timeout abort), non-2xx status, missing
body, any number of delivered chunks, mid-stream read failure — produces a
callback trace consisting of `onChunk` deliveries only, followed optionally
by a single `onError`, and terminated by exactly one `onClose`: the
finalizer runs exactly once on every exit path, after all chunks, and any
`onError` precedes it. -/
theorem c3_finalizer_every_path :
    ∀ (parse : List Char → LineParse) (inp : StreamInput),
      ∃ pre : List Ev,
        pre.all isChunkEv = true ∧
        (streamEvents parse inp = pre ++ [Ev.close] ∨
          streamEvents parse inp = pre ++ [Ev.error, Ev.close]) ∧
        (streamEvents parse inp).count Ev.close = 1 := by
  intro parse inp
  cases hf : inp.fetchFails with
  | true =>
    refine ⟨[], rfl, Or.inr ?_, ?_⟩
    · simp [streamEvents, hf]
    · rw [show streamEvents parse inp = [Ev.error, Ev.close] by simp [streamEvents, hf]]
      decide
  | false =>
    cases hok : inp.ok with
    | false =>
      refine ⟨[], rfl, Or.inr ?_, ?_⟩
      · simp [streamEvents, hf, hok]
      · rw [show streamEvents parse inp = [Ev.error, Ev.close] by
          simp [streamEvents, hf, hok]]
        decide
    | true =>
      cases hb : inp.hasBody with
      | false =>
        refine ⟨[], rfl, Or.inr ?_, ?_⟩
        · simp [streamEvents, hf, hok, hb]
        · rw [show streamEvents parse inp = [Ev.error, Ev.close] by
            simp [streamEvents, hf, hok, hb]]
          decide
      | true =>
        have hall : (readLoop parse [] inp.chunks).all isChunkEv = true :=
          readLoop_all_chunk parse inp.chunks []
        have hcount : (readLoop parse [] inp.chunks).count Ev.close = 0 :=
          count_close_of_chunks hall
        cases hm : inp.midError with
        | false =>
          refine ⟨readLoop parse [] inp.chunks, hall, Or.inl ?_, ?_⟩
          · simp [streamEvents, hf, hok, hb, hm]
          · rw [show streamEvents parse inp =
                readLoop parse [] inp.chunks ++ [Ev.close] by
              simp [streamEvents, hf, hok, hb, hm]]
            rw [List.count_append, hcount]
            rfl
        | true =>
          refine ⟨readLoop parse [] inp.chunks, hall, Or.inr ?_, ?_⟩
          · simp [streamEvents, hf, hok, hb, hm]
          · rw [show streamEvents parse inp =
                readLoop parse [] inp.chunks ++ [Ev.error, Ev.close] by
              simp [streamEvents, hf, hok, hb, hm]]
            rw [List.count_append, hcount]
            rfl

/-! ## Claim C4 -/

/-- C4: on a successful streaming response the callback trace is exactly the
per-line events of the newline-separated complete lines of the concatenated
body, in arrival order, followed by the finalizer — each line contributes at
most one `onChunk` (exactly one when it parses to a record with non-empty
message content; none when it is blank, malformed, or has an absent or empty
content field, malformed lines never aborting the stream).  The concrete run
has a malformed line and an absent-content line between two good records
split across a chunk boundary, and delivers exactly those two contents in
order. -/
theorem c4_ndjson_decoding :
    (∀ (parse : List Char → LineParse) (chunks : List (List Char)),
      streamEvents parse
          { fetchFails := false, ok := true, hasBody := true,
            chunks := chunks, midError := false } =
        ((splitNl chunks.flatten).1.map (lineEvents parse)).flatten ++ [Ev.close]) ∧
    (∀ (parse : List Char → LineParse) (line : List Char),
      (lineEvents parse line).length ≤ 1) ∧
    streamEvents
        (fun l =>
          if l = "good1".data then LineParse.parsed (some "Hello")
          else if l = "good2".data then LineParse.parsed (some " world")
          else if l = "empty".data then LineParse.parsed none
          else LineParse.malformed)
        { fetchFails := false, ok := true, hasBody := true,
          chunks := ["good1\nBAD!\ngo".data, "od2\nempty\n".data], midError := false } =
      [Ev.chunk "Hello", Ev.chunk " world", Ev.close] := by
  refine ⟨?_, ?_, by decide⟩
  · intro parse chunks
    show readLoop parse [] chunks ++ [Ev.close] = _
    rw [readLoop_flatten parse chunks [] (by simp)]
    rfl
  · intro parse line
    by_cases hb : (jsTrim line).isEmpty
    · simp [lineEvents, hb]
    · cases hp : parse line with
      | malformed => simp [lineEvents, hb, hp]
      | parsed content =>
        cases content with
        | none => simp [lineEvents, hb, hp]
        | some c =>
          by_cases hc : c = "" <;> simp [lineEvents, hb, hp, hc]

/-! ## Claim C10 -/

/-- C10: bytes after the last newline of the body are retained in the line
buffer and silently discarded at stream end: appending any newline-free
trailing chunk to a successful response changes nothing in the callback
trace, whatever record the trailing text would have parsed to.  The
concrete run keeps a complete, parsable record with non-empty content in the
buffer and still emits no `onChunk` for it. -/
theorem c10_trailing_line_dropped
    (parse : List Char → LineParse) (chunks : List (List Char)) (s : List Char)
    (hs : '\n' ∉ s) :
    streamEvents parse
        { fetchFails := false, ok := true, hasBody := true,
          chunks := chunks ++ [s], midError := false } =
      streamEvents parse
        { fetchFails := false, ok := true, hasBody := true,
          chunks := chunks, midError := false } := by
  show readLoop parse [] (chunks ++ [s]) ++ [Ev.close] =
    readLoop parse [] chunks ++ [Ev.close]
  rw [readLoop_flatten parse (chunks ++ [s]) [] (by simp),
    readLoop_flatten parse chunks [] (by simp)]
  rcases hX : splitNl chunks.flatten with ⟨ls, buf⟩
  have hbuf : '\n' ∉ buf := by
    have h2 := splitNl_snd_no_nl chunks.flatten
    rw [hX] at h2
    exact h2
  have hnone : '\n' ∉ buf ++ s := by
    rw [List.mem_append]
    rintro (h | h)
    · exact hbuf h
    · exact hs h
  have hflat : (chunks ++ [s]).flatten = chunks.flatten ++ s := by
    rw [List.flatten_append]
    simp
  rw [hflat]
  simp only [List.nil_append]
  rw [splitNl_append chunks.flatten s, hX, splitNl_of_no_nl (buf ++ s) hnone]
  simp

/-- Witness for C10: a trailing record `tail` that parses to non-empty
content is dropped, leaving the trace of the terminated part unchanged. -/
theorem c10_trailing_line_dropped_witness :
    ('\n' ∉ "tail".data) ∧
    streamEvents
        (fun l =>
          if l = "tail".data then LineParse.parsed (some "TAIL")
          else LineParse.malformed)
        { fetchFails := false, ok := true, hasBody := true,
          chunks := ["ok\n".data] ++ ["tail".data], midError := false } =
      streamEvents
        (fun l =>
          if l = "tail".data then LineParse.parsed (some "TAIL")
          else LineParse.malformed)
        { fetchFails := false, ok := true, hasBody := true,
          chunks := ["ok\n".data], midError := false } :=
  ⟨by decide,
    c10_trailing_line_dropped
      (fun l =>
        if l = "tail".data then LineParse.parsed (some "TAIL")
        else LineParse.malformed)
      ["ok\n".data] "tail".data (by decide)⟩

end AiHologram
